import Mathlib

/-!
Verification development for the generic caching block-device layer of the
repository (src/drivers/src/block_device.rs together with the traits of
src/device_interface/src/lib.rs).

Shallow embedding conventions:
* Byte buffers, cached page frames and 512-byte sectors are modelled as total
  functions Nat → Nat; only the indices below the relevant length are ever
  observed, mirroring the Rust slices.
* The LruCache of the lru crate is modelled as an association list whose head
  is the most-recently-used entry; push, get, get_mut and contains follow the
  crate's documented behaviour (contains does not touch recency, get and
  get_mut promote, push inserts at the MRU end and pops the LRU entry when the
  cache is full).
* A Rust panic (the unconditional unwrap calls on transport I/O inside read
  and write, slice out-of-bounds indexing in MemoryFat32Img, and loops that
  never terminate) is modelled as the value none; an ordinary return value v
  is modelled as some v.  The AlienResult return type is modelled as
  Except BlkError; the source never constructs the error branch.
* FRAME_SIZE (hence PAGE_CACHE_SIZE) comes from the external config crate and
  BLOCK_CACHE_FRAMES from the external platform crate, neither of which is in
  the sources.  Modelled from the spec: the page size is the physical frame
  size, a fixed multiple of 512 (parameter spp counts 512-byte sectors per
  page), and the cache capacity is a fixed positive frame count (parameter
  cap; positivity mirrors the NonZeroUsize unwrap in GenericBlockDevice::new).
  These two configuration numbers are passed as explicit parameters instead of
  being stored, which is the only difference from the Rust struct layout.
* The FrameTracker raw-pointer plumbing (alloc_frames/free_frames and the
  debug check comparing a frame pointer against the literal address
  0x9000_0000) is memory management with no observable effect on the byte
  values of pages and is not reified; a freshly allocated frame is modelled as
  the all-zero page, which the miss-fill loop overwrites in full.
-/

namespace BlockDriver

/-- Byte-indexed contents of a buffer, frame, or sector. -/
abbrev Bytes := Nat → Nat

/-- Contents of the in-memory backing medium, sector by sector
(block index → 512-byte sector contents). -/
abbrev Disk := Nat → Bytes

/-- Modelled from the spec: error taxonomy of section 7 of the design
(IoError, OutOfRange, ResourceExhausted); the concrete LinuxErrno type lives
in the external constants crate. -/
inductive BlkError where
  | ioError
  | outOfRange
  | resourceExhausted
deriving DecidableEq

/-- PAGE_CACHE_SIZE = FRAME_SIZE.  Modelled from the spec: the frame size is a
multiple of 512; spp is the number of 512-byte sectors per page. -/
def PAGE_CACHE_SIZE (spp : Nat) : Nat := 512 * spp

/-- The LowBlockDevice trait: a sector-granular transport.  read_block and
write_block take &mut self, so they thread a transport state σ; a none result
models a call that panics or errors at the transport level. -/
structure LowBlockDevice (σ : Type) where
  readBlock : σ → Nat → Option (Bytes × σ)
  writeBlock : σ → Nat → Bytes → Option σ
  capacity : σ → Nat

/-- GenericBlockDevice: mutex-guarded transport handle, LRU page cache
(MRU first), and the dirty page-index table. -/
structure GenericBlockDevice (σ : Type) where
  device : σ
  cache : List (Nat × Bytes)
  dirty : List Nat

/-- GenericBlockDevice::new: empty cache, empty dirty set. -/
def GenericBlockDevice.new {σ : Type} (dev : σ) : GenericBlockDevice σ :=
  ⟨dev, [], []⟩

/-- LruCache::contains — membership test that does not touch recency. -/
def lruContains (cache : List (Nat × Bytes)) (k : Nat) : Bool :=
  cache.any fun e => e.1 == k

/-- Value lookup part of LruCache::get / get_mut (the first binding wins). -/
def lruGet (cache : List (Nat × Bytes)) (k : Nat) : Option Bytes :=
  (cache.find? fun e => e.1 == k).map Prod.snd

/-- Recency effect of LruCache::get: move the binding of k to the MRU end. -/
def lruPromote (cache : List (Nat × Bytes)) (k : Nat) : List (Nat × Bytes) :=
  match cache.find? (fun e => e.1 == k) with
  | none => cache
  | some e => e :: cache.eraseP (fun x => x.1 == k)

/-- Combined effect of LruCache::get_mut followed by writing through the
mutable reference: the binding of k is promoted and now maps to v. -/
def lruSetFront (cache : List (Nat × Bytes)) (k : Nat) (v : Bytes) :
    List (Nat × Bytes) :=
  (k, v) :: cache.eraseP (fun x => x.1 == k)

/-- LruCache::push: if k is already bound, rebind and return the old pair;
otherwise insert at the MRU end, popping and returning the LRU pair when the
cache is at capacity.  The first component is the new cache, the second the
returned old pair. -/
def lruPush (cap : Nat) (cache : List (Nat × Bytes)) (k : Nat) (v : Bytes) :
    List (Nat × Bytes) × Option (Nat × Bytes) :=
  match cache.find? (fun e => e.1 == k) with
  | some old => ((k, v) :: cache.eraseP (fun x => x.1 == k), some old)
  | none =>
    if cache.length < cap then ((k, v) :: cache, none)
    else
      match cache.getLast? with
      | none => ((k, v) :: cache, none)
      | some last => ((k, v) :: cache.dropLast, some last)

/-- Slice copy dst[dstPos..dstPos+n].copy_from_slice(src[srcPos..srcPos+n]). -/
def copyBytes (dst : Bytes) (dstPos : Nat) (src : Bytes) (srcPos n : Nat) :
    Bytes :=
  fun j => if dstPos ≤ j ∧ j < dstPos + n then src (srcPos + (j - dstPos)) else dst j

/-- The miss-fill loop of read/write: for i in start_block..end_block,
device.read_block(i, &mut cache[(i-start_block)*512..(i-start_block+1)*512])
followed by unwrap.  s is the next sector index within the page, n the number
of sectors still to fill; none models the unwrap panicking. -/
def missFillAux {σ : Type} (lb : LowBlockDevice σ) (startBlock : Nat) :
    Nat → Nat → σ → Bytes → Option (σ × Bytes)
  | _, 0, dev, page => some (dev, page)
  | s, n + 1, dev, page =>
    match lb.readBlock dev (startBlock + s) with
    | none => none
    | some (sec, dev1) =>
      missFillAux lb startBlock (s + 1) n dev1 (copyBytes page (s * 512) sec 0 512)

/-- The eviction write-back loop of read/write: for i in start_block..end_block,
device.write_block(i, &old_cache[(i-start_block)*512..(i-start_block+1)*512])
followed by unwrap, and self.dirty.lock().retain(|&x| x != id) on every
iteration, exactly as in the source. -/
def evictWriteBackAux {σ : Type} (lb : LowBlockDevice σ) (startBlock : Nat)
    (old : Bytes) (id : Nat) :
    Nat → Nat → σ → List Nat → Option (σ × List Nat)
  | _, 0, dev, dirty => some (dev, dirty)
  | s, n + 1, dev, dirty =>
    match lb.writeBlock dev (startBlock + s) (fun k => old (s * 512 + k)) with
    | none => none
    | some dev1 =>
      evictWriteBackAux lb startBlock old id (s + 1) n dev1
        (dirty.filter fun x => x != id)

/-- The shared miss-or-hit block of GenericBlockDevice::read and
GenericBlockDevice::write (the two paths are textually identical in the
source): on a hit everything is untouched; on a miss allocate a fresh frame,
fill it sector by sector from the transport, push it into the LRU cache, and
if the push evicted the LRU entry write that page back sector by sector and
drop its index from the dirty table. -/
def ensureResident (spp cap : Nat) {σ : Type} (lb : LowBlockDevice σ)
    (pageId : Nat) (st : GenericBlockDevice σ) : Option (GenericBlockDevice σ) :=
  if lruContains st.cache pageId then some st
  else
    match missFillAux lb (pageId * PAGE_CACHE_SIZE spp / 512) 0
        (PAGE_CACHE_SIZE spp / 512) st.device (fun _ => 0) with
    | none => none
    | some (dev1, page) =>
      match lruPush cap st.cache pageId page with
      | (cache1, none) => some ⟨dev1, cache1, st.dirty⟩
      | (cache1, some (id, old)) =>
        match evictWriteBackAux lb (id * PAGE_CACHE_SIZE spp / 512) old id 0
            (PAGE_CACHE_SIZE spp / 512) dev1 st.dirty with
        | none => none
        | some (dev2, dirty2) => some ⟨dev2, cache1, dirty2⟩

/-- The while-loop of GenericBlockDevice::read.  fuel bounds the number of
iterations (with the configured positive page size each iteration copies at
least one byte, so fuel = len suffices); running out of fuel with work left
models the Rust loop never terminating, hence none. -/
def readLoop (spp cap : Nat) {σ : Type} (lb : LowBlockDevice σ) (len : Nat) :
    Nat → Nat → Nat → Nat → Bytes → GenericBlockDevice σ →
    Option (Bytes × GenericBlockDevice σ)
  | 0, _, _, count, buf, st =>
    if count < len then none else some (buf, st)
  | fuel + 1, pageId, offset, count, buf, st =>
    if count < len then
      match ensureResident spp cap lb pageId st with
      | none => none
      | some st1 =>
        match lruGet st1.cache pageId with
        | none => none
        | some page =>
          let st2 : GenericBlockDevice σ :=
            ⟨st1.device, lruPromote st1.cache pageId, st1.dirty⟩
          let copyLen := min (PAGE_CACHE_SIZE spp - offset) (len - count)
          let buf1 := copyBytes buf count page offset copyLen
          readLoop spp cap lb len fuel (pageId + 1) 0 (count + copyLen) buf1 st2
    else some (buf, st)

/-- The while-loop of GenericBlockDevice::write.  Identical shape to the read
loop; the cached page is updated through get_mut (promote plus overwrite) and
the new intra-page offset is (offset + copy_len) % PAGE_CACHE_SIZE as in the
source.  The commented-out dirty push of the source is (faithfully) absent. -/
def writeLoop (spp cap : Nat) {σ : Type} (lb : LowBlockDevice σ) (len : Nat)
    (buf : Bytes) :
    Nat → Nat → Nat → Nat → GenericBlockDevice σ →
    Option (GenericBlockDevice σ)
  | 0, _, _, count, st =>
    if count < len then none else some st
  | fuel + 1, pageId, offset, count, st =>
    if count < len then
      match ensureResident spp cap lb pageId st with
      | none => none
      | some st1 =>
        match lruGet st1.cache pageId with
        | none => none
        | some page =>
          let copyLen := min (PAGE_CACHE_SIZE spp - offset) (len - count)
          let page1 := copyBytes page offset buf count copyLen
          let st2 : GenericBlockDevice σ :=
            ⟨st1.device, lruSetFront st1.cache pageId page1, st1.dirty⟩
          writeLoop spp cap lb len buf fuel (pageId + 1)
            ((offset + copyLen) % PAGE_CACHE_SIZE spp) (count + copyLen) st2
    else some st

/-- GenericBlockDevice::read(buf, offset): split the byte offset into a page
index and an intra-page offset and run the copy loop; on normal termination
the source returns Ok(buf.len()). -/
def GenericBlockDevice.read (spp cap : Nat) {σ : Type} (lb : LowBlockDevice σ)
    (buf : Bytes) (len offset0 : Nat) (st : GenericBlockDevice σ) :
    Option (Except BlkError Nat × Bytes × GenericBlockDevice σ) :=
  match readLoop spp cap lb len len (offset0 / PAGE_CACHE_SIZE spp)
      (offset0 % PAGE_CACHE_SIZE spp) 0 buf st with
  | none => none
  | some (buf1, st1) => some (Except.ok len, buf1, st1)

/-- GenericBlockDevice::write(buf, offset); on normal termination the source
returns Ok(buf.len()). -/
def GenericBlockDevice.write (spp cap : Nat) {σ : Type} (lb : LowBlockDevice σ)
    (buf : Bytes) (len offset0 : Nat) (st : GenericBlockDevice σ) :
    Option (Except BlkError Nat × GenericBlockDevice σ) :=
  match writeLoop spp cap lb len buf len (offset0 / PAGE_CACHE_SIZE spp)
      (offset0 % PAGE_CACHE_SIZE spp) 0 st with
  | none => none
  | some st1 => some (Except.ok len, st1)

/-- GenericBlockDevice::size: capacity in sectors times 512. -/
def GenericBlockDevice.size {σ : Type} (lb : LowBlockDevice σ)
    (st : GenericBlockDevice σ) : Nat :=
  lb.capacity st.device * 512

/-- GenericBlockDevice::flush: the entire body is commented out in the source;
it returns Ok(()) and changes nothing. -/
def GenericBlockDevice.flush {σ : Type} (st : GenericBlockDevice σ) :
    Option (Except BlkError Unit × GenericBlockDevice σ) :=
  some (Except.ok (), st)

/-- The idealized in-memory transport: an unbounded sector store whose
read_block and write_block always succeed (MemoryFat32Img restricted to
in-range accesses).  The capacity report is irrelevant to the cache path. -/
def memDevice : LowBlockDevice Disk where
  readBlock d i := some (d i, d)
  writeBlock d i b := some fun j => if j = i then b else d j
  capacity _ := 0

/-- State of the MemoryFat32Img transport: a flat byte array with its length. -/
structure Fat32Img where
  data : Bytes
  len : Nat

/-- MemoryFat32Img: block I/O by slice copy on a flat byte array; indexing
data[start..start+512] panics (none) when the slice leaves the array. -/
def MemoryFat32Img : LowBlockDevice Fat32Img where
  readBlock img blockId :=
    if blockId * 512 + 512 ≤ img.len then
      some (fun k => img.data (blockId * 512 + k), img)
    else none
  writeBlock img blockId b :=
    if blockId * 512 + 512 ≤ img.len then
      some ⟨fun j => if blockId * 512 ≤ j ∧ j < blockId * 512 + 512 then
              b (j - blockId * 512) else img.data j,
            img.len⟩
    else none
  capacity img := img.len / 512

/-- A transport whose every I/O call fails (virtio read_block/write_block
returning Err(EIO)): used to observe how GenericBlockDevice treats transport
failures. -/
def failingDevice : LowBlockDevice Unit where
  readBlock _ _ := none
  writeBlock _ _ _ := none
  capacity _ := 0

/-- Byte n of the backing medium. -/
def diskByte (d : Disk) (n : Nat) : Nat := d (n / 512) (n % 512)

/-- Byte n of the device as observed through the cache: the cached page wins,
otherwise the backing medium. -/
def viewByte (spp : Nat) (st : GenericBlockDevice Disk) (n : Nat) : Nat :=
  match lruGet st.cache (n / PAGE_CACHE_SIZE spp) with
  | some page => page (n % PAGE_CACHE_SIZE spp)
  | none => diskByte st.device n

/-- Structural well-formedness of a device state: cache keys are distinct
(LruCache holds at most one entry per key) and the entry count is within the
configured capacity. -/
abbrev CacheWF (cap : Nat) {σ : Type} (st : GenericBlockDevice σ) : Prop :=
  (st.cache.map Prod.fst).Nodup ∧ st.cache.length ≤ cap

/-- One filesystem-facing operation on the device. -/
inductive Op where
  | readOp (len offset : Nat)
  | writeOp (data : Bytes) (len offset : Nat)
  | flushOp

/-- Run one operation, keeping only the device state. -/
def runOp (spp cap : Nat) {σ : Type} (lb : LowBlockDevice σ) (op : Op)
    (st : GenericBlockDevice σ) : Option (GenericBlockDevice σ) :=
  match op with
  | .readOp l q =>
    match GenericBlockDevice.read spp cap lb (fun _ => 0) l q st with
    | none => none
    | some (_, _, st1) => some st1
  | .writeOp d l q =>
    match GenericBlockDevice.write spp cap lb d l q st with
    | none => none
    | some (_, st1) => some st1
  | .flushOp =>
    match GenericBlockDevice.flush st with
    | none => none
    | some (_, st1) => some st1

/-- Run a sequence of operations. -/
def runOps (spp cap : Nat) {σ : Type} (lb : LowBlockDevice σ) :
    List Op → GenericBlockDevice σ → Option (GenericBlockDevice σ)
  | [], st => some st
  | op :: ops, st =>
    match runOp spp cap lb op st with
    | none => none
    | some st1 => runOps spp cap lb ops st1

/-- Does this operation write nowhere inside the byte range starting at o of
length len?  (Reads and flushes write nowhere.) -/
def opDisjoint (op : Op) (o len : Nat) : Bool :=
  match op with
  | .writeOp _ l q => decide (q + l ≤ o) || decide (o + len ≤ q)
  | _ => true

/-- The all-zero backing medium. -/
def zeroDisk : Disk := fun _ _ => 0

/-- Cache residency of page p after running ops from a fresh device over the
in-memory transport (false also when the run panics). -/
def pageEvictedAfter (spp cap : Nat) (ops : List Op) (d0 : Disk) (p : Nat) :
    Bool :=
  match runOps spp cap memDevice ops (GenericBlockDevice.new d0) with
  | none => false
  | some st => !(lruContains st.cache p)

/-- Byte n of the backing medium after running ops from a fresh device. -/
def diskByteAfter (spp cap : Nat) (ops : List Op) (d0 : Disk) (n : Nat) :
    Option Nat :=
  match runOps spp cap memDevice ops (GenericBlockDevice.new d0) with
  | none => none
  | some st => some (diskByte st.device n)

/-- Byte n as seen through the cache after running ops from a fresh device. -/
def viewByteAfter (spp cap : Nat) (ops : List Op) (d0 : Disk) (n : Nat) :
    Option Nat :=
  match runOps spp cap memDevice ops (GenericBlockDevice.new d0) with
  | none => none
  | some st => some (viewByte spp st n)

/-! Arithmetic helpers about page and sector positions. -/

lemma PCS_pos {spp : Nat} (h : 0 < spp) : 0 < PAGE_CACHE_SIZE spp := by
  simp only [PAGE_CACHE_SIZE]; omega

lemma PCS_div_512 (spp : Nat) : PAGE_CACHE_SIZE spp / 512 = spp :=
  Nat.mul_div_cancel_left spp (by norm_num)

lemma startBlock_eq (spp p : Nat) : p * PAGE_CACHE_SIZE spp / 512 = p * spp := by
  have h : p * PAGE_CACHE_SIZE spp = 512 * (p * spp) := by
    simp only [PAGE_CACHE_SIZE]; ring
  rw [h, Nat.mul_div_cancel_left _ (by norm_num)]

lemma pagePos_div {PS : Nat} (hPS : 0 < PS) (p r : Nat) (hr : r < PS) :
    (p * PS + r) / PS = p := by
  rw [Nat.mul_comm p PS, Nat.mul_add_div hPS, Nat.div_eq_of_lt hr, Nat.add_zero]

lemma pagePos_mod {PS : Nat} (p r : Nat) (hr : r < PS) :
    (p * PS + r) % PS = r := by
  rw [Nat.mul_comm p PS, Nat.mul_add_mod, Nat.mod_eq_of_lt hr]

lemma page_decomp (PS n : Nat) : n = n / PS * PS + n % PS := by
  rw [Nat.mul_comm]; exact (Nat.div_add_mod n PS).symm

lemma diskByte_in_page (spp : Nat) (d : Disk) (p r : Nat) :
    diskByte d (p * PAGE_CACHE_SIZE spp + r) = d (p * spp + r / 512) (r % 512) := by
  have h1 : p * PAGE_CACHE_SIZE spp + r = 512 * (p * spp) + r := by
    simp only [PAGE_CACHE_SIZE]; ring
  rw [diskByte, h1, Nat.mul_add_div (by norm_num), Nat.mul_add_mod]

/-! Helpers about find?, eraseP and the LRU association-list operations. -/

lemma find?_append_cases {α : Type} (l1 l2 : List α) (p : α → Bool) :
    (l1 ++ l2).find? p =
      match l1.find? p with
      | some x => some x
      | none => l2.find? p := by
  induction l1 with
  | nil => simp
  | cons a t ih =>
    by_cases h : p a
    · simp [List.find?_cons, h]
    · simp only [List.cons_append, List.find?_cons, h]
      exact ih

lemma find?_eraseP_ne (c : List (Nat × Bytes)) (k q : Nat) (hne : k ≠ q) :
    (c.eraseP (fun x => x.1 == k)).find? (fun x => x.1 == q) =
      c.find? (fun x => x.1 == q) := by
  induction c with
  | nil => rfl
  | cons a t ih =>
    by_cases h : a.1 = k
    · have hk : (a.1 == k) = true := by simpa using h
      have hq : (a.1 == q) = false := beq_eq_false_iff_ne.mpr (h ▸ hne)
      simp [List.eraseP_cons, hk, List.find?_cons, hq]
    · have hk : (a.1 == k) = false := beq_eq_false_iff_ne.mpr h
      by_cases hq : a.1 = q
      · have hq1 : (a.1 == q) = true := by simpa using hq
        simp [List.eraseP_cons, hk, List.find?_cons, hq1]
      · have hq1 : (a.1 == q) = false := beq_eq_false_iff_ne.mpr hq
        simp [List.eraseP_cons, hk, List.find?_cons, hq1, ih]

lemma length_eraseP_of_find? {α : Type} (p : α → Bool) (c : List α) (e : α)
    (h : c.find? p = some e) : (c.eraseP p).length + 1 = c.length := by
  have hm := List.mem_of_find?_eq_some h
  have hp := List.find?_some h
  have := List.length_eraseP_of_mem hm hp
  have hpos : 0 < c.length := List.length_pos.mpr (by rintro rfl; simp at hm)
  omega

lemma keys_eraseP_not_mem (c : List (Nat × Bytes)) (k : Nat)
    (hnd : (c.map Prod.fst).Nodup) :
    k ∉ (c.eraseP (fun x => x.1 == k)).map Prod.fst := by
  induction c with
  | nil => simp
  | cons a t ih =>
    rw [List.map_cons, List.nodup_cons] at hnd
    by_cases h : a.1 = k
    · have hk : (a.1 == k) = true := by simpa using h
      simp only [List.eraseP_cons, hk, cond_true]
      rw [← h]; exact hnd.1
    · have hk : (a.1 == k) = false := beq_eq_false_iff_ne.mpr h
      simp only [List.eraseP_cons, hk, cond_false, List.map_cons, List.mem_cons]
      rintro (rfl | hmem)
      · exact h rfl
      · exact ih hnd.2 hmem

lemma keysNodup_eraseP (c : List (Nat × Bytes)) (p : Nat × Bytes → Bool)
    (hnd : (c.map Prod.fst).Nodup) : ((c.eraseP p).map Prod.fst).Nodup :=
  hnd.sublist ((List.eraseP_sublist c).map Prod.fst)

lemma find?_eq_none_of_contains_false (c : List (Nat × Bytes)) (k : Nat)
    (h : lruContains c k = false) : c.find? (fun e => e.1 == k) = none := by
  rw [List.find?_eq_none]
  intro x hx hpx
  have hany : c.any (fun e => e.1 == k) = true := List.any_eq_true.mpr ⟨x, hx, hpx⟩
  rw [lruContains, hany] at h
  exact absurd h (by simp)

lemma key_not_mem_of_contains_false (c : List (Nat × Bytes)) (k : Nat)
    (h : lruContains c k = false) : k ∉ c.map Prod.fst := by
  intro hmem
  obtain ⟨e, he, hek⟩ := List.mem_map.mp hmem
  have hany : c.any (fun x => x.1 == k) = true :=
    List.any_eq_true.mpr ⟨e, he, by simpa using hek⟩
  rw [lruContains, hany] at h
  exact absurd h (by simp)

lemma lruContains_eq_isSome (c : List (Nat × Bytes)) (k : Nat) :
    lruContains c k = (lruGet c k).isSome := by
  cases hf : c.find? (fun e => e.1 == k) with
  | none =>
    have hn : ∀ x ∈ c, ¬(x.1 == k) = true := List.find?_eq_none.mp hf
    have : c.any (fun e => e.1 == k) = false := List.any_eq_false.mpr hn
    simp [lruContains, lruGet, hf, this]
  | some e =>
    have hm : e ∈ c := List.mem_of_find?_eq_some hf
    have hp := List.find?_some hf
    have hany : c.any (fun x => x.1 == k) = true := List.any_eq_true.mpr ⟨e, hm, hp⟩
    simp [lruContains, lruGet, hf, hany]

lemma lruGet_eq_none_of_contains_false (c : List (Nat × Bytes)) (k : Nat)
    (h : lruContains c k = false) : lruGet c k = none := by
  rw [lruGet, find?_eq_none_of_contains_false c k h]
  rfl

lemma lruGet_isSome_of_contains_true (c : List (Nat × Bytes)) (k : Nat)
    (h : lruContains c k = true) : ∃ v, lruGet c k = some v := by
  rw [lruContains_eq_isSome] at h
  exact Option.isSome_iff_exists.mp h

lemma lruGet_setFront (c : List (Nat × Bytes)) (k : Nat) (v : Bytes) (q : Nat) :
    lruGet (lruSetFront c k v) q = if q = k then some v else lruGet c q := by
  by_cases h : q = k
  · subst h
    simp [lruGet, lruSetFront, List.find?_cons]
  · have hk : ((k : Nat) == q) = false := beq_eq_false_iff_ne.mpr (Ne.symm h)
    simp only [lruGet, lruSetFront, List.find?_cons, hk, if_neg h,
      find?_eraseP_ne c k q (Ne.symm h)]

lemma lruGet_promote (c : List (Nat × Bytes)) (k q : Nat) :
    lruGet (lruPromote c k) q = lruGet c q := by
  unfold lruPromote
  cases hf : c.find? (fun e => e.1 == k) with
  | none => rfl
  | some e =>
    have hek : e.1 = k := by simpa using List.find?_some hf
    by_cases h : q = k
    · subst h
      simp only [lruGet, List.find?_cons, show (e.1 == q) = true by simpa using hek,
        hf]
    · have he : (e.1 == q) = false := by
        rw [hek]; exact beq_eq_false_iff_ne.mpr (Ne.symm h)
      simp only [lruGet, List.find?_cons, he, find?_eraseP_ne c k q (Ne.symm h)]

lemma keysNodup_setFront (c : List (Nat × Bytes)) (k : Nat) (v : Bytes)
    (hnd : (c.map Prod.fst).Nodup) :
    ((lruSetFront c k v).map Prod.fst).Nodup := by
  rw [lruSetFront, List.map_cons, List.nodup_cons]
  exact ⟨keys_eraseP_not_mem c k hnd, keysNodup_eraseP c _ hnd⟩

lemma keysNodup_promote (c : List (Nat × Bytes)) (k : Nat)
    (hnd : (c.map Prod.fst).Nodup) :
    ((lruPromote c k).map Prod.fst).Nodup := by
  unfold lruPromote
  cases hf : c.find? (fun e => e.1 == k) with
  | none => exact hnd
  | some e =>
    have hek : e.1 = k := by simpa using List.find?_some hf
    rw [List.map_cons, List.nodup_cons]
    exact ⟨hek ▸ keys_eraseP_not_mem c k hnd, keysNodup_eraseP c _ hnd⟩

lemma length_promote (c : List (Nat × Bytes)) (k : Nat) :
    (lruPromote c k).length = c.length := by
  unfold lruPromote
  cases hf : c.find? (fun e => e.1 == k) with
  | none => rfl
  | some e =>
    rw [List.length_cons, length_eraseP_of_find? _ c e hf]

lemma length_setFront_of_found (c : List (Nat × Bytes)) (k : Nat) (v w : Bytes)
    (h : lruGet c k = some w) : (lruSetFront c k v).length = c.length := by
  rw [lruGet] at h
  cases hf : c.find? (fun e => e.1 == k) with
  | none => rw [hf] at h; exact absurd h (by simp)
  | some e => rw [lruSetFront, List.length_cons, length_eraseP_of_find? _ c e hf]

lemma lruPush_spec (cap : Nat) (hcap : 0 < cap) (c : List (Nat × Bytes))
    (k : Nat) (v : Bytes) (hk : lruContains c k = false)
    (hnd : (c.map Prod.fst).Nodup) (hlen : c.length ≤ cap) :
    ∃ c1 ev, lruPush cap c k v = (c1, ev) ∧
      (c1.map Prod.fst).Nodup ∧ c1.length ≤ cap ∧
      lruGet c1 k = some v ∧
      ((ev = none ∧ ∀ q, q ≠ k → lruGet c1 q = lruGet c q) ∨
       (∃ id old, ev = some (id, old) ∧ id ≠ k ∧ lruGet c id = some old ∧
         lruGet c1 id = none ∧
         ∀ q, q ≠ k → q ≠ id → lruGet c1 q = lruGet c q)) := by
  have hfind : c.find? (fun e => e.1 == k) = none :=
    find?_eq_none_of_contains_false c k hk
  have hkmem : k ∉ c.map Prod.fst := key_not_mem_of_contains_false c k hk
  by_cases hl : c.length < cap
  · refine ⟨(k, v) :: c, none, ?_, ?_, ?_, ?_, ?_⟩
    · rw [lruPush, hfind]; simp [hl]
    · rw [List.map_cons, List.nodup_cons]; exact ⟨hkmem, hnd⟩
    · simpa using hl
    · simp [lruGet, List.find?_cons]
    · refine Or.inl ⟨rfl, fun q hq => ?_⟩
      have : ((k : Nat) == q) = false := beq_eq_false_iff_ne.mpr (Ne.symm hq)
      simp [lruGet, List.find?_cons, this]
  · have hlc : c.length = cap := by omega
    have hne : c ≠ [] := by
      rw [← List.length_pos]; omega
    have hlast : c.getLast? = some (c.getLast hne) := List.getLast?_eq_getLast c hne
    set e := c.getLast hne with hedef
    have hsplit : c.dropLast ++ [e] = c := List.dropLast_append_getLast hne
    have hpush : lruPush cap c k v = ((k, v) :: c.dropLast, some e) := by
      rw [lruPush, hfind]
      simp only [hl, if_false, hlast]
    have hdropsub : (c.dropLast.map Prod.fst).Sublist (c.map Prod.fst) :=
      (List.dropLast_sublist c).map Prod.fst
    have hndkeys : ((c.dropLast.map Prod.fst) ++ [e.1]).Nodup := by
      have : (c.dropLast ++ [e]).map Prod.fst =
          c.dropLast.map Prod.fst ++ [e.1] := by
        rw [List.map_append]; rfl
      rw [← this, hsplit]; exact hnd
    have hidnot : e.1 ∉ c.dropLast.map Prod.fst := by
      rw [List.nodup_append] at hndkeys
      intro hmem
      exact hndkeys.2.2 hmem (by simp)
    have hidk : e.1 ≠ k := by
      intro hh
      refine hkmem ?_
      rw [← hh]
      exact List.mem_map.mpr ⟨e, List.getLast_mem hne, rfl⟩
    have hfinddrop : c.dropLast.find? (fun x => x.1 == e.1) = none := by
      rw [List.find?_eq_none]
      intro x hx hpx
      exact hidnot (List.mem_map.mpr ⟨x, hx, by simpa using hpx⟩)
    have hgetid : lruGet c e.1 = some e.2 := by
      rw [lruGet, ← hsplit, find?_append_cases, hfinddrop]
      simp [List.find?_cons]
    refine ⟨(k, v) :: c.dropLast, some e, hpush, ?_, ?_, ?_, ?_⟩
    · rw [List.map_cons, List.nodup_cons]
      constructor
      · intro hmem
        exact hkmem (hdropsub.mem hmem)
      · exact hnd.sublist hdropsub
    · have := List.length_dropLast c
      simp only [List.length_cons]
      omega
    · simp [lruGet, List.find?_cons]
    · refine Or.inr ⟨e.1, e.2, rfl, hidk, hgetid, ?_, ?_⟩
      · have hk1 : ((k : Nat) == e.1) = false := beq_eq_false_iff_ne.mpr (Ne.symm hidk)
        simp only [lruGet, List.find?_cons, hk1, hfinddrop]
        rfl
      · intro q hqk hqid
        have hk1 : ((k : Nat) == q) = false := beq_eq_false_iff_ne.mpr (Ne.symm hqk)
        have hq2 : (e.1 == q) = false := beq_eq_false_iff_ne.mpr (Ne.symm hqid)
        simp only [lruGet, List.find?_cons, hk1]
        rw [show c.find? (fun x => x.1 == q) =
            (c.dropLast ++ [e]).find? (fun x => x.1 == q) by rw [hsplit]]
        rw [find?_append_cases]
        cases hfd : c.dropLast.find? (fun x => x.1 == q) with
        | none => simp [List.find?_cons, hq2]
        | some x => rfl

/-! Invariants that hold over an arbitrary transport: cache well-formedness is
preserved and the dirty table only ever loses elements. -/

lemma evictWriteBackAux_dirty {σ : Type} (lb : LowBlockDevice σ) (sb : Nat)
    (old : Bytes) (id : Nat) :
    ∀ (n s : Nat) (dev : σ) (dirty : List Nat) (dev1 : σ) (dirty1 : List Nat),
      evictWriteBackAux lb sb old id s n dev dirty = some (dev1, dirty1) →
      ∀ x ∈ dirty1, x ∈ dirty := by
  intro n
  induction n with
  | zero =>
    intro s dev dirty dev1 dirty1 h x hx
    unfold evictWriteBackAux at h
    cases h
    exact hx
  | succ n ih =>
    intro s dev dirty dev1 dirty1 h x hx
    unfold evictWriteBackAux at h
    split at h
    · cases h
    · next dev2 hw =>
      have := ih (s + 1) dev2 (dirty.filter fun y => y != id) dev1 dirty1 h x hx
      exact (List.mem_filter.mp this).1

lemma ensureResident_inv {σ : Type} (spp cap : Nat) (hcap : 0 < cap)
    (lb : LowBlockDevice σ) (pageId : Nat) (st st1 : GenericBlockDevice σ)
    (h : ensureResident spp cap lb pageId st = some st1) (hwf : CacheWF cap st) :
    CacheWF cap st1 ∧ lruContains st1.cache pageId = true ∧
      ∀ x ∈ st1.dirty, x ∈ st.dirty := by
  unfold ensureResident at h
  split at h
  · next hc =>
    cases h
    exact ⟨hwf, hc, fun x hx => hx⟩
  · next hc =>
    have hcf : lruContains st.cache pageId = false := by
      simpa using hc
    split at h
    · cases h
    · next dev1 page hm =>
      obtain ⟨c1, ev, hpush, hnd1, hlen1, hget1, hrest⟩ :=
        lruPush_spec cap hcap st.cache pageId page hcf hwf.1 hwf.2
      have hcont1 : lruContains c1 pageId = true := by
        rw [lruContains_eq_isSome, hget1]
        rfl
      rw [hpush] at h
      split at h
      · next cache1 heq =>
        injection heq with h1 h2
        subst h1
        cases h
        exact ⟨⟨hnd1, hlen1⟩, hcont1, fun x hx => hx⟩
      · next cache1 id old heq =>
        injection heq with h1 h2
        subst h1
        split at h
        · cases h
        · next dev2 dirty2 hew =>
          cases h
          exact ⟨⟨hnd1, hlen1⟩, hcont1,
            evictWriteBackAux_dirty lb _ old id _ 0 dev1 st.dirty dev2 dirty2 hew⟩

lemma readLoop_inv {σ : Type} (spp cap : Nat) (hcap : 0 < cap)
    (lb : LowBlockDevice σ) (len : Nat) :
    ∀ (fuel pageId offset count : Nat) (buf : Bytes) (st : GenericBlockDevice σ)
      (buf1 : Bytes) (st1 : GenericBlockDevice σ),
      readLoop spp cap lb len fuel pageId offset count buf st = some (buf1, st1) →
      CacheWF cap st →
      CacheWF cap st1 ∧ ∀ x ∈ st1.dirty, x ∈ st.dirty := by
  intro fuel
  induction fuel with
  | zero =>
    intro pageId offset count buf st buf1 st1 h hwf
    unfold readLoop at h
    split at h
    · cases h
    · cases h
      exact ⟨hwf, fun x hx => hx⟩
  | succ fuel ih =>
    intro pageId offset count buf st buf1 st1 h hwf
    unfold readLoop at h
    split at h
    · split at h
      · cases h
      · next stA hER =>
        obtain ⟨hwfA, hcontA, hdirtyA⟩ :=
          ensureResident_inv spp cap hcap lb pageId st stA hER hwf
        split at h
        · cases h
        · next page hg =>
          have hwfB : CacheWF cap
              (⟨stA.device, lruPromote stA.cache pageId, stA.dirty⟩ :
                GenericBlockDevice σ) := by
            refine ⟨keysNodup_promote _ _ hwfA.1, ?_⟩
            simpa [length_promote] using hwfA.2
          obtain ⟨hwf1, hd1⟩ := ih _ _ _ _ _ _ _ h hwfB
          exact ⟨hwf1, fun x hx => hdirtyA x (hd1 x hx)⟩
    · cases h
      exact ⟨hwf, fun x hx => hx⟩

lemma writeLoop_inv {σ : Type} (spp cap : Nat) (hcap : 0 < cap)
    (lb : LowBlockDevice σ) (len : Nat) (buf : Bytes) :
    ∀ (fuel pageId offset count : Nat) (st st1 : GenericBlockDevice σ),
      writeLoop spp cap lb len buf fuel pageId offset count st = some st1 →
      CacheWF cap st →
      CacheWF cap st1 ∧ ∀ x ∈ st1.dirty, x ∈ st.dirty := by
  intro fuel
  induction fuel with
  | zero =>
    intro pageId offset count st st1 h hwf
    unfold writeLoop at h
    split at h
    · cases h
    · cases h
      exact ⟨hwf, fun x hx => hx⟩
  | succ fuel ih =>
    intro pageId offset count st st1 h hwf
    unfold writeLoop at h
    split at h
    · split at h
      · cases h
      · next stA hER =>
        obtain ⟨hwfA, hcontA, hdirtyA⟩ :=
          ensureResident_inv spp cap hcap lb pageId st stA hER hwf
        split at h
        · cases h
        · next page hg =>
          have hwfB : CacheWF cap
              (⟨stA.device,
                lruSetFront stA.cache pageId
                  (copyBytes page offset buf count
                    (min (PAGE_CACHE_SIZE spp - offset) (len - count))),
                stA.dirty⟩ : GenericBlockDevice σ) := by
            refine ⟨keysNodup_setFront _ _ _ hwfA.1, ?_⟩
            have hl := length_setFront_of_found stA.cache pageId
              (copyBytes page offset buf count
                (min (PAGE_CACHE_SIZE spp - offset) (len - count))) page hg
            simpa [hl] using hwfA.2
          obtain ⟨hwf1, hd1⟩ := ih _ _ _ _ _ h hwfB
          exact ⟨hwf1, fun x hx => hdirtyA x (hd1 x hx)⟩
    · cases h
      exact ⟨hwf, fun x hx => hx⟩

lemma read_inv {σ : Type} (spp cap : Nat) (hcap : 0 < cap)
    (lb : LowBlockDevice σ) (buf : Bytes) (len offset0 : Nat)
    (st : GenericBlockDevice σ) (out : Except BlkError Nat × Bytes × GenericBlockDevice σ)
    (h : GenericBlockDevice.read spp cap lb buf len offset0 st = some out)
    (hwf : CacheWF cap st) :
    CacheWF cap out.2.2 ∧ ∀ x ∈ out.2.2.dirty, x ∈ st.dirty := by
  unfold GenericBlockDevice.read at h
  split at h
  · cases h
  · next buf1 st1 hr =>
    cases h
    exact readLoop_inv spp cap hcap lb len _ _ _ _ _ _ _ _ hr hwf

lemma write_inv {σ : Type} (spp cap : Nat) (hcap : 0 < cap)
    (lb : LowBlockDevice σ) (buf : Bytes) (len offset0 : Nat)
    (st : GenericBlockDevice σ) (out : Except BlkError Nat × GenericBlockDevice σ)
    (h : GenericBlockDevice.write spp cap lb buf len offset0 st = some out)
    (hwf : CacheWF cap st) :
    CacheWF cap out.2 ∧ ∀ x ∈ out.2.dirty, x ∈ st.dirty := by
  unfold GenericBlockDevice.write at h
  split at h
  · cases h
  · next st1 hr =>
    cases h
    exact writeLoop_inv spp cap hcap lb len buf _ _ _ _ _ _ hr hwf

lemma runOp_inv {σ : Type} (spp cap : Nat) (hcap : 0 < cap)
    (lb : LowBlockDevice σ) (op : Op) (st st1 : GenericBlockDevice σ)
    (h : runOp spp cap lb op st = some st1) (hwf : CacheWF cap st) :
    CacheWF cap st1 ∧ ∀ x ∈ st1.dirty, x ∈ st.dirty := by
  cases op with
  | readOp l q =>
    simp only [runOp] at h
    split at h
    · cases h
    · next r bufA stA heq =>
      cases h
      exact read_inv spp cap hcap lb _ l q st (r, bufA, st1) heq hwf
  | writeOp d l q =>
    simp only [runOp] at h
    split at h
    · cases h
    · next r stA heq =>
      cases h
      exact write_inv spp cap hcap lb d l q st (r, st1) heq hwf
  | flushOp =>
    simp only [runOp, GenericBlockDevice.flush] at h
    cases h
    exact ⟨hwf, fun x hx => hx⟩

lemma runOps_inv {σ : Type} (spp cap : Nat) (hcap : 0 < cap)
    (lb : LowBlockDevice σ) :
    ∀ (ops : List Op) (st st1 : GenericBlockDevice σ),
      runOps spp cap lb ops st = some st1 → CacheWF cap st →
      CacheWF cap st1 ∧ ∀ x ∈ st1.dirty, x ∈ st.dirty := by
  intro ops
  induction ops with
  | nil =>
    intro st st1 h hwf
    cases h
    exact ⟨hwf, fun x hx => hx⟩
  | cons op ops ih =>
    intro st st1 h hwf
    unfold runOps at h
    split at h
    · cases h
    · next stA ho =>
      obtain ⟨hwfA, hdA⟩ := runOp_inv spp cap hcap lb op st stA ho hwf
      obtain ⟨hwf1, hd1⟩ := ih stA st1 h hwfA
      exact ⟨hwf1, fun x hx => hdA x (hd1 x hx)⟩

lemma new_wf {σ : Type} (cap : Nat) (dev : σ) :
    CacheWF cap (GenericBlockDevice.new dev) := by
  constructor
  · simp [GenericBlockDevice.new]
  · simp [GenericBlockDevice.new]

/-! Exact characterization of the fill and write-back loops over the
idealized in-memory transport. -/

lemma filter_self_idem {α : Type} (f : α → Bool) (l : List α) :
    (l.filter f).filter f = l.filter f := by
  induction l with
  | nil => rfl
  | cons a t ih =>
    by_cases h : f a <;> simp [List.filter_cons, h, ih]

lemma missFillAux_mem (sb : Nat) (d : Disk) :
    ∀ (n s : Nat) (p : Bytes),
      ∃ p1, missFillAux memDevice sb s n d p = some (d, p1) ∧
        ∀ j, p1 j = if s * 512 ≤ j ∧ j < (s + n) * 512
          then d (sb + j / 512) (j % 512) else p j := by
  intro n
  induction n with
  | zero =>
    intro s p
    refine ⟨p, rfl, fun j => ?_⟩
    rw [if_neg (by omega)]
  | succ n ih =>
    intro s p
    obtain ⟨p1, hrec, hchar⟩ := ih (s + 1) (copyBytes p (s * 512) (d (sb + s)) 0 512)
    refine ⟨p1, hrec, fun j => ?_⟩
    rw [hchar j]
    by_cases h1 : (s + 1) * 512 ≤ j ∧ j < (s + 1 + n) * 512
    · rw [if_pos h1, if_pos (by omega)]
    · rw [if_neg h1]
      by_cases h2 : s * 512 ≤ j ∧ j < (s + (n + 1)) * 512
      · rw [if_pos h2]
        have hj : s * 512 ≤ j ∧ j < s * 512 + 512 := by omega
        have e1 : j / 512 = s := by omega
        have e2 : j % 512 = j - s * 512 := by omega
        simp only [copyBytes, if_pos hj, e1, e2, Nat.zero_add]
      · rw [if_neg h2]
        simp only [copyBytes, if_neg (show ¬(s * 512 ≤ j ∧ j < s * 512 + 512) by omega)]

lemma evictWriteBackAux_mem (sb : Nat) (old : Bytes) (id : Nat) :
    ∀ (n s : Nat) (d : Disk) (dirty : List Nat),
      ∃ d1, evictWriteBackAux memDevice sb old id s n d dirty =
          some (d1, if n = 0 then dirty else dirty.filter fun x => x != id) ∧
        ∀ i, d1 i = if sb + s ≤ i ∧ i < sb + s + n
          then (fun k => old ((i - sb) * 512 + k)) else d i := by
  intro n
  induction n with
  | zero =>
    intro s d dirty
    refine ⟨d, rfl, fun i => ?_⟩
    rw [if_neg (by omega)]
  | succ n ih =>
    intro s d dirty
    obtain ⟨d1, hrec, hchar⟩ := ih (s + 1)
      (fun j => if j = sb + s then (fun k => old (s * 512 + k)) else d j)
      (dirty.filter fun x => x != id)
    have hdirty : (if n = 0 then dirty.filter (fun x => x != id)
        else (dirty.filter fun x => x != id).filter fun x => x != id) =
        dirty.filter fun x => x != id := by
      cases n <;> simp [filter_self_idem]
    rw [hdirty] at hrec
    refine ⟨d1, ?_, fun i => ?_⟩
    · rw [if_neg (Nat.succ_ne_zero n)]
      exact hrec
    · rw [hchar i]
      by_cases h1 : sb + (s + 1) ≤ i ∧ i < sb + (s + 1) + n
      · rw [if_pos h1, if_pos (by omega)]
      · rw [if_neg h1]
        by_cases h2 : i = sb + s
        · rw [if_pos h2, if_pos (by omega)]
          have e1 : i - sb = s := by omega
          rw [e1]
        · rw [if_neg h2, if_neg (by omega)]

/-! Helpers for reading the cache-or-medium view at a page position. -/

lemma viewByte_in_page (spp : Nat) (hspp : 0 < spp) (st : GenericBlockDevice Disk)
    (p r : Nat) (hr : r < PAGE_CACHE_SIZE spp) (page : Bytes)
    (hg : lruGet st.cache p = some page) :
    viewByte spp st (p * PAGE_CACHE_SIZE spp + r) = page r := by
  unfold viewByte
  rw [pagePos_div (PCS_pos hspp) p r hr, pagePos_mod p r hr, hg]

lemma viewByte_not_cached (spp : Nat) (st : GenericBlockDevice Disk) (n : Nat)
    (hg : lruGet st.cache (n / PAGE_CACHE_SIZE spp) = none) :
    viewByte spp st n = diskByte st.device n := by
  unfold viewByte
  rw [hg]

lemma viewByte_congr (spp : Nat) (st1 st2 : GenericBlockDevice Disk) (n : Nat)
    (hg : lruGet st1.cache (n / PAGE_CACHE_SIZE spp) =
      lruGet st2.cache (n / PAGE_CACHE_SIZE spp))
    (hd : diskByte st1.device n = diskByte st2.device n) :
    viewByte spp st1 n = viewByte spp st2 n := by
  unfold viewByte
  rw [hg]
  cases hl : lruGet st2.cache (n / PAGE_CACHE_SIZE spp) with
  | none => exact hd
  | some page => rfl

lemma sector_div_page (spp : Nat) (n id : Nat)
    (hlo : id * spp ≤ n / 512) (hhi : n / 512 < id * spp + spp) :
    n / PAGE_CACHE_SIZE spp = id := by
  have h1 : n / PAGE_CACHE_SIZE spp = n / 512 / spp := by
    rw [PAGE_CACHE_SIZE, ← Nat.div_div_eq_div_mul]
  rw [h1]
  exact Nat.div_eq_of_lt_le hlo (by rw [Nat.succ_mul]; omega)

/-! The combined hit-or-miss-fill-or-evict step preserves the byte view. -/

lemma ensureResident_mem (spp cap : Nat) (hspp : 0 < spp) (hcap : 0 < cap)
    (st : GenericBlockDevice Disk) (hwf : CacheWF cap st) (pageId : Nat) :
    ∃ st1, ensureResident spp cap memDevice pageId st = some st1 ∧
      ∀ n, viewByte spp st1 n = viewByte spp st n := by
  by_cases hc : lruContains st.cache pageId = true
  · refine ⟨st, ?_, fun n => rfl⟩
    unfold ensureResident
    rw [if_pos hc]
  · have hcf : lruContains st.cache pageId = false := by simpa using hc
    have hgnone : lruGet st.cache pageId = none :=
      lruGet_eq_none_of_contains_false st.cache pageId hcf
    obtain ⟨P, hmf, hPchar⟩ :=
      missFillAux_mem (pageId * PAGE_CACHE_SIZE spp / 512) st.device
        (PAGE_CACHE_SIZE spp / 512) 0 (fun _ => 0)
    have hP : ∀ j, j < PAGE_CACHE_SIZE spp →
        P j = diskByte st.device (pageId * PAGE_CACHE_SIZE spp + j) := by
      intro j hj
      have hcond : 0 * 512 ≤ j ∧ j < (0 + PAGE_CACHE_SIZE spp / 512) * 512 := by
        rw [PCS_div_512]
        rw [PAGE_CACHE_SIZE] at hj
        omega
      rw [hPchar j, if_pos hcond, startBlock_eq, diskByte_in_page]
    obtain ⟨c1, ev, hpush, hnd1, hlen1, hget1, hrest⟩ :=
      lruPush_spec cap hcap st.cache pageId P hcf hwf.1 hwf.2
    rcases hrest with ⟨hevn, hq⟩ | ⟨id, old, hev, hidk, hgetold, hc1id, hq⟩
    · subst hevn
      refine ⟨⟨st.device, c1, st.dirty⟩, ?_, fun n => ?_⟩
      · unfold ensureResident
        rw [if_neg hc]
        split
        · next hmf2 =>
          rw [hmf] at hmf2
          cases hmf2
        · next dev1 page hmf2 =>
          rw [hmf] at hmf2
          injection hmf2 with hpair
          injection hpair with hdev hpage
          subst hdev
          subst hpage
          split
          · next cache1 hpu =>
            rw [hpush] at hpu
            injection hpu with hcc hee
            subst hcc
            rfl
          · next cache1 id2 old2 hpu =>
            rw [hpush] at hpu
            injection hpu with hcc hee
            cases hee
      · have hr : n % PAGE_CACHE_SIZE spp < PAGE_CACHE_SIZE spp :=
          Nat.mod_lt n (PCS_pos hspp)
        have hn := page_decomp (PAGE_CACHE_SIZE spp) n
        by_cases hqp : n / PAGE_CACHE_SIZE spp = pageId
        · rw [hn, hqp]
          rw [viewByte_in_page spp hspp ⟨st.device, c1, st.dirty⟩ pageId _ hr P hget1,
            hP _ hr]
          rw [viewByte_not_cached spp st (pageId * PAGE_CACHE_SIZE spp +
            n % PAGE_CACHE_SIZE spp)]
          rw [pagePos_div (PCS_pos hspp) pageId _ hr]
          exact hgnone
        · refine viewByte_congr spp _ _ n ?_ rfl
          exact hq (n / PAGE_CACHE_SIZE spp) hqp
    · subst hev
      obtain ⟨d2, hew, hd2⟩ :=
        evictWriteBackAux_mem (id * PAGE_CACHE_SIZE spp / 512) old id
          (PAGE_CACHE_SIZE spp / 512) 0 st.device st.dirty
      have hsppne : PAGE_CACHE_SIZE spp / 512 ≠ 0 := by
        rw [PCS_div_512]; omega
      rw [if_neg hsppne] at hew
      refine ⟨⟨d2, c1, st.dirty.filter fun x => x != id⟩, ?_, fun n => ?_⟩
      · unfold ensureResident
        rw [if_neg hc]
        split
        · next hmf2 =>
          rw [hmf] at hmf2
          cases hmf2
        · next dev1 page hmf2 =>
          rw [hmf] at hmf2
          injection hmf2 with hpair
          injection hpair with hdev hpage
          subst hdev
          subst hpage
          split
          · next cache1 hpu =>
            rw [hpush] at hpu
            injection hpu with hcc hee
            cases hee
          · next cache1 id2 old2 hpu =>
            rw [hpush] at hpu
            injection hpu with hcc hee
            injection hee with hio
            injection hio with hi ho
            subst hcc
            subst hi
            subst ho
            split
            · next hew2 =>
              rw [hew] at hew2
              cases hew2
            · next dev2 dirty2 hew2 =>
              rw [hew] at hew2
              injection hew2 with hpair2
              injection hpair2 with hd hdirt
              subst hd
              subst hdirt
              rfl
      · have hr : n % PAGE_CACHE_SIZE spp < PAGE_CACHE_SIZE spp :=
          Nat.mod_lt n (PCS_pos hspp)
        have hn := page_decomp (PAGE_CACHE_SIZE spp) n
        have hd2char : ∀ i, d2 i = if id * spp ≤ i ∧ i < id * spp + spp
            then (fun k => old ((i - id * spp) * 512 + k)) else st.device i := by
          intro i
          rw [hd2 i, startBlock_eq, PCS_div_512]
          by_cases hi : id * spp ≤ i ∧ i < id * spp + spp
          · rw [if_pos (by omega), if_pos hi]
          · rw [if_neg (by omega), if_neg hi]
        by_cases hqp : n / PAGE_CACHE_SIZE spp = pageId
        · rw [hn, hqp]
          rw [viewByte_in_page spp hspp ⟨d2, c1, _⟩ pageId _ hr P hget1, hP _ hr]
          rw [viewByte_not_cached spp st (pageId * PAGE_CACHE_SIZE spp +
            n % PAGE_CACHE_SIZE spp)]
          rw [pagePos_div (PCS_pos hspp) pageId _ hr]
          exact hgnone
        · by_cases hqid : n / PAGE_CACHE_SIZE spp = id
          · rw [hn, hqid]
            rw [viewByte_in_page spp hspp st id _ hr old hgetold]
            rw [viewByte_not_cached spp ⟨d2, c1, _⟩ (id * PAGE_CACHE_SIZE spp +
              n % PAGE_CACHE_SIZE spp)]
            · show diskByte d2 (id * PAGE_CACHE_SIZE spp + n % PAGE_CACHE_SIZE spp) =
                old (n % PAGE_CACHE_SIZE spp)
              rw [diskByte_in_page, hd2char]
              have hdivlt : n % PAGE_CACHE_SIZE spp / 512 < spp := by
                have h512 : n % PAGE_CACHE_SIZE spp < 512 * spp := by
                  rw [← PAGE_CACHE_SIZE]; exact hr
                omega
              rw [if_pos ⟨Nat.le_add_right _ _, Nat.add_lt_add_left hdivlt _⟩]
              have e1 : (id * spp + n % PAGE_CACHE_SIZE spp / 512 - id * spp) * 512 +
                  n % PAGE_CACHE_SIZE spp % 512 = n % PAGE_CACHE_SIZE spp := by
                rw [Nat.add_sub_cancel_left]
                omega
              rw [e1]
            · rw [pagePos_div (PCS_pos hspp) id _ hr]
              exact hc1id
          · refine viewByte_congr spp _ _ n (hq _ hqp hqid) ?_
            show diskByte d2 n = diskByte st.device n
            rw [diskByte, diskByte, hd2char]
            rw [if_neg ?_]
            intro hcon
            exact hqid (sector_div_page spp n id hcon.1 hcon.2)

/-! Full characterization of the read loop over the in-memory transport:
it always terminates with Ok, returns the bytes of the cache-or-medium view,
and leaves that view unchanged. -/

lemma readLoop_mem (spp cap : Nat) (hspp : 0 < spp) (hcap : 0 < cap) (len : Nat) :
    ∀ (fuel pageId offset count : Nat) (buf : Bytes) (st : GenericBlockDevice Disk),
      CacheWF cap st → offset < PAGE_CACHE_SIZE spp → len - count ≤ fuel →
      ∃ buf1 st1,
        readLoop spp cap memDevice len fuel pageId offset count buf st =
          some (buf1, st1) ∧
        (∀ n, viewByte spp st1 n = viewByte spp st n) ∧
        (∀ m, count ≤ m → m < len →
          buf1 m = viewByte spp st
            (pageId * PAGE_CACHE_SIZE spp + offset + (m - count))) ∧
        (∀ m, m < count ∨ len ≤ m → buf1 m = buf m) := by
  intro fuel
  induction fuel with
  | zero =>
    intro pageId offset count buf st hwf hoff hfuel
    have hcl : ¬count < len := by omega
    refine ⟨buf, st, ?_, fun n => rfl, fun m hm1 hm2 => ?_, fun m hm => rfl⟩
    · unfold readLoop
      rw [if_neg hcl]
    · omega
  | succ fuel ih =>
    intro pageId offset count buf st hwf hoff hfuel
    by_cases hcl : count < len
    · obtain ⟨stA, hER, hview⟩ :=
        ensureResident_mem spp cap hspp hcap st hwf pageId
      obtain ⟨hwfA, hcontA, hdA⟩ :=
        ensureResident_inv spp cap hcap memDevice pageId st stA hER hwf
      obtain ⟨page, hg⟩ := lruGet_isSome_of_contains_true stA.cache pageId hcontA
      have hwfB : CacheWF cap
          (⟨stA.device, lruPromote stA.cache pageId, stA.dirty⟩ :
            GenericBlockDevice Disk) := by
        refine ⟨keysNodup_promote _ _ hwfA.1, ?_⟩
        simpa [length_promote] using hwfA.2
      have hviewB : ∀ n,
          viewByte spp (⟨stA.device, lruPromote stA.cache pageId, stA.dirty⟩ :
            GenericBlockDevice Disk) n = viewByte spp stA n := by
        intro n
        exact viewByte_congr spp _ stA n (lruGet_promote stA.cache pageId _) rfl
      have hcopy1 : 1 ≤ min (PAGE_CACHE_SIZE spp - offset) (len - count) := by
        omega
      obtain ⟨buf1, st1, hrec, hv1, hmid1, hout1⟩ :=
        ih (pageId + 1) 0 (count + min (PAGE_CACHE_SIZE spp - offset) (len - count))
          (copyBytes buf count page offset
            (min (PAGE_CACHE_SIZE spp - offset) (len - count)))
          ⟨stA.device, lruPromote stA.cache pageId, stA.dirty⟩
          hwfB (PCS_pos hspp) (by omega)
      have hviewApage : ∀ r, r < PAGE_CACHE_SIZE spp →
          viewByte spp stA (pageId * PAGE_CACHE_SIZE spp + r) = page r := by
        intro r hr
        exact viewByte_in_page spp hspp stA pageId r hr page hg
      refine ⟨buf1, st1, ?_, ?_, ?_, ?_⟩
      · unfold readLoop
        rw [if_pos hcl]
        split
        · next hER2 =>
          rw [hER] at hER2
          cases hER2
        · next stA2 hER2 =>
          rw [hER] at hER2
          injection hER2 with h1
          subst h1
          split
          · next hg2 =>
            rw [hg] at hg2
            cases hg2
          · next page2 hg2 =>
            rw [hg] at hg2
            injection hg2 with h2
            subst h2
            exact hrec
      · intro n
        rw [hv1 n, hviewB n, hview n]
      · intro m hm1 hm2
        by_cases hmc : m < count + min (PAGE_CACHE_SIZE spp - offset) (len - count)
        · have hbuf : buf1 m = copyBytes buf count page offset
              (min (PAGE_CACHE_SIZE spp - offset) (len - count)) m :=
            hout1 m (Or.inl hmc)
          rw [hbuf]
          have hcond : count ≤ m ∧ m < count +
              min (PAGE_CACHE_SIZE spp - offset) (len - count) := ⟨hm1, hmc⟩
          rw [copyBytes, if_pos hcond]
          have hrlt : offset + (m - count) < PAGE_CACHE_SIZE spp := by omega
          rw [← hview (pageId * PAGE_CACHE_SIZE spp + offset + (m - count)),
            show pageId * PAGE_CACHE_SIZE spp + offset + (m - count) =
              pageId * PAGE_CACHE_SIZE spp + (offset + (m - count)) by omega,
            hviewApage (offset + (m - count)) hrlt]
        · have hrest : count + min (PAGE_CACHE_SIZE spp - offset) (len - count) ≤ m :=
            by omega
          have hclen : min (PAGE_CACHE_SIZE spp - offset) (len - count) =
              PAGE_CACHE_SIZE spp - offset := by omega
          have hbuf := hmid1 m hrest hm2
          rw [hbuf, hviewB, hview]
          have hposeq : (pageId + 1) * PAGE_CACHE_SIZE spp + 0 +
              (m - (count + min (PAGE_CACHE_SIZE spp - offset) (len - count))) =
              pageId * PAGE_CACHE_SIZE spp + offset + (m - count) := by
            rw [Nat.succ_mul]
            omega
          rw [hposeq]
      · intro m hm
        have h1 : buf1 m = copyBytes buf count page offset
            (min (PAGE_CACHE_SIZE spp - offset) (len - count)) m := by
          refine hout1 m ?_
          rcases hm with hm | hm
          · exact Or.inl (by omega)
          · exact Or.inr hm
        rw [h1, copyBytes, if_neg (by omega)]
    · refine ⟨buf, st, ?_, fun n => rfl, fun m hm1 hm2 => by omega,
        fun m hm => rfl⟩
      unfold readLoop
      rw [if_neg hcl]

/-! Full characterization of the write loop over the in-memory transport:
it always terminates, installs the written bytes in the view, and leaves the
view unchanged outside the written range. -/

lemma writeLoop_mem (spp cap : Nat) (hspp : 0 < spp) (hcap : 0 < cap)
    (len : Nat) (buf : Bytes) :
    ∀ (fuel pageId offset count : Nat) (st : GenericBlockDevice Disk),
      CacheWF cap st → offset < PAGE_CACHE_SIZE spp → len - count ≤ fuel →
      ∃ st1,
        writeLoop spp cap memDevice len buf fuel pageId offset count st =
          some st1 ∧
        (∀ m, count ≤ m → m < len →
          viewByte spp st1
            (pageId * PAGE_CACHE_SIZE spp + offset + (m - count)) = buf m) ∧
        (∀ n, n < pageId * PAGE_CACHE_SIZE spp + offset ∨
            pageId * PAGE_CACHE_SIZE spp + offset + (len - count) ≤ n →
          viewByte spp st1 n = viewByte spp st n) := by
  intro fuel
  induction fuel with
  | zero =>
    intro pageId offset count st hwf hoff hfuel
    have hcl : ¬count < len := by omega
    refine ⟨st, ?_, fun m hm1 hm2 => by omega, fun n hn => rfl⟩
    unfold writeLoop
    rw [if_neg hcl]
  | succ fuel ih =>
    intro pageId offset count st hwf hoff hfuel
    by_cases hcl : count < len
    · obtain ⟨stA, hER, hview⟩ :=
        ensureResident_mem spp cap hspp hcap st hwf pageId
      obtain ⟨hwfA, hcontA, hdA⟩ :=
        ensureResident_inv spp cap hcap memDevice pageId st stA hER hwf
      obtain ⟨page, hg⟩ := lruGet_isSome_of_contains_true stA.cache pageId hcontA
      have hwfB : CacheWF cap
          (⟨stA.device,
            lruSetFront stA.cache pageId
              (copyBytes page offset buf count
                (min (PAGE_CACHE_SIZE spp - offset) (len - count))),
            stA.dirty⟩ : GenericBlockDevice Disk) := by
        refine ⟨keysNodup_setFront _ _ _ hwfA.1, ?_⟩
        have hl := length_setFront_of_found stA.cache pageId
          (copyBytes page offset buf count
            (min (PAGE_CACHE_SIZE spp - offset) (len - count))) page hg
        simpa [hl] using hwfA.2
      have hoffB : (offset + min (PAGE_CACHE_SIZE spp - offset) (len - count)) %
          PAGE_CACHE_SIZE spp < PAGE_CACHE_SIZE spp :=
        Nat.mod_lt _ (PCS_pos hspp)
      have hcopy1 : 1 ≤ min (PAGE_CACHE_SIZE spp - offset) (len - count) := by
        omega
      obtain ⟨st1, hrec, hmid1, hout1⟩ :=
        ih (pageId + 1)
          ((offset + min (PAGE_CACHE_SIZE spp - offset) (len - count)) %
            PAGE_CACHE_SIZE spp)
          (count + min (PAGE_CACHE_SIZE spp - offset) (len - count))
          ⟨stA.device,
            lruSetFront stA.cache pageId
              (copyBytes page offset buf count
                (min (PAGE_CACHE_SIZE spp - offset) (len - count))),
            stA.dirty⟩
          hwfB hoffB (by omega)
      have hvB_in : ∀ r, r < PAGE_CACHE_SIZE spp →
          viewByte spp
            (⟨stA.device,
              lruSetFront stA.cache pageId
                (copyBytes page offset buf count
                  (min (PAGE_CACHE_SIZE spp - offset) (len - count))),
              stA.dirty⟩ : GenericBlockDevice Disk)
            (pageId * PAGE_CACHE_SIZE spp + r) =
            copyBytes page offset buf count
              (min (PAGE_CACHE_SIZE spp - offset) (len - count)) r := by
        intro r hr
        refine viewByte_in_page spp hspp _ pageId r hr _ ?_
        rw [lruGet_setFront, if_pos rfl]
      have hvB_out : ∀ n, n / PAGE_CACHE_SIZE spp ≠ pageId →
          viewByte spp
            (⟨stA.device,
              lruSetFront stA.cache pageId
                (copyBytes page offset buf count
                  (min (PAGE_CACHE_SIZE spp - offset) (len - count))),
              stA.dirty⟩ : GenericBlockDevice Disk) n = viewByte spp stA n := by
        intro n hn
        refine viewByte_congr spp _ stA n ?_ rfl
        rw [lruGet_setFront, if_neg hn]
      have hviewApage : ∀ r, r < PAGE_CACHE_SIZE spp →
          viewByte spp stA (pageId * PAGE_CACHE_SIZE spp + r) = page r := by
        intro r hr
        exact viewByte_in_page spp hspp stA pageId r hr page hg
      refine ⟨st1, ?_, ?_, ?_⟩
      · unfold writeLoop
        rw [if_pos hcl]
        split
        · next hER2 =>
          rw [hER] at hER2
          cases hER2
        · next stA2 hER2 =>
          rw [hER] at hER2
          injection hER2 with h1
          subst h1
          split
          · next hg2 =>
            rw [hg] at hg2
            cases hg2
          · next page2 hg2 =>
            rw [hg] at hg2
            injection hg2 with h2
            subst h2
            exact hrec
      · intro m hm1 hm2
        by_cases hmc : m < count + min (PAGE_CACHE_SIZE spp - offset) (len - count)
        · have hrlt : offset + (m - count) < PAGE_CACHE_SIZE spp := by omega
          have hpos : pageId * PAGE_CACHE_SIZE spp + offset + (m - count) =
              pageId * PAGE_CACHE_SIZE spp + (offset + (m - count)) := by omega
          rw [hpos]
          have hst1 : viewByte spp st1
              (pageId * PAGE_CACHE_SIZE spp + (offset + (m - count))) =
              viewByte spp
                (⟨stA.device,
                  lruSetFront stA.cache pageId
                    (copyBytes page offset buf count
                      (min (PAGE_CACHE_SIZE spp - offset) (len - count))),
                  stA.dirty⟩ : GenericBlockDevice Disk)
                (pageId * PAGE_CACHE_SIZE spp + (offset + (m - count))) := by
            refine hout1 _ (Or.inl ?_)
            rw [Nat.succ_mul]
            omega
          rw [hst1, hvB_in _ hrlt, copyBytes,
            if_pos (show offset ≤ offset + (m - count) ∧ offset + (m - count) <
              offset + min (PAGE_CACHE_SIZE spp - offset) (len - count) by omega),
            show count + (offset + (m - count) - offset) = m by omega]
        · have hclen : min (PAGE_CACHE_SIZE spp - offset) (len - count) =
              PAGE_CACHE_SIZE spp - offset := by omega
          have hsum : offset + min (PAGE_CACHE_SIZE spp - offset) (len - count) =
              PAGE_CACHE_SIZE spp := by omega
          have hoff0 : (offset + min (PAGE_CACHE_SIZE spp - offset) (len - count)) %
              PAGE_CACHE_SIZE spp = 0 := by
            rw [hsum, Nat.mod_self]
          have hres := hmid1 m (by omega) hm2
          rw [hoff0] at hres
          have hposeq : (pageId + 1) * PAGE_CACHE_SIZE spp + 0 +
              (m - (count + min (PAGE_CACHE_SIZE spp - offset) (len - count))) =
              pageId * PAGE_CACHE_SIZE spp + offset + (m - count) := by
            rw [Nat.succ_mul]
            omega
          rw [hposeq] at hres
          exact hres
      · intro n hn
        have hstep1 : viewByte spp st1 n =
            viewByte spp
              (⟨stA.device,
                lruSetFront stA.cache pageId
                  (copyBytes page offset buf count
                    (min (PAGE_CACHE_SIZE spp - offset) (len - count))),
                stA.dirty⟩ : GenericBlockDevice Disk) n := by
          refine hout1 n ?_
          rcases Nat.le_total (PAGE_CACHE_SIZE spp - offset) (len - count) with
            hmin | hmin
          · have hclen : min (PAGE_CACHE_SIZE spp - offset) (len - count) =
                PAGE_CACHE_SIZE spp - offset := by omega
            have hoff0 : (offset + min (PAGE_CACHE_SIZE spp - offset)
                (len - count)) % PAGE_CACHE_SIZE spp = 0 := by
              rw [show offset + min (PAGE_CACHE_SIZE spp - offset) (len - count) =
                PAGE_CACHE_SIZE spp by omega, Nat.mod_self]
            rw [hoff0, Nat.succ_mul]
            rcases hn with hn | hn
            · exact Or.inl (by omega)
            · exact Or.inr (by omega)
          · have hclen : min (PAGE_CACHE_SIZE spp - offset) (len - count) =
                len - count := by omega
            rcases Nat.le_total n ((pageId + 1) * PAGE_CACHE_SIZE spp +
                (offset + min (PAGE_CACHE_SIZE spp - offset) (len - count)) %
                  PAGE_CACHE_SIZE spp) with hsplit | hsplit
            · rcases Nat.lt_or_ge n ((pageId + 1) * PAGE_CACHE_SIZE spp +
                  (offset + min (PAGE_CACHE_SIZE spp - offset) (len - count)) %
                    PAGE_CACHE_SIZE spp) with hlt | hge
              · exact Or.inl hlt
              · exact Or.inr (by omega)
            · exact Or.inr (by omega)
        rw [hstep1]
        have hstep2 : viewByte spp
            (⟨stA.device,
              lruSetFront stA.cache pageId
                (copyBytes page offset buf count
                  (min (PAGE_CACHE_SIZE spp - offset) (len - count))),
              stA.dirty⟩ : GenericBlockDevice Disk) n = viewByte spp stA n := by
          by_cases hqp : n / PAGE_CACHE_SIZE spp = pageId
          · have hr : n % PAGE_CACHE_SIZE spp < PAGE_CACHE_SIZE spp :=
              Nat.mod_lt n (PCS_pos hspp)
            have hdecomp := page_decomp (PAGE_CACHE_SIZE spp) n
            have hrange : n % PAGE_CACHE_SIZE spp < offset ∨
                offset + min (PAGE_CACHE_SIZE spp - offset) (len - count) ≤
                  n % PAGE_CACHE_SIZE spp := by
              rcases hn with hn | hn
              · left
                rw [hdecomp, hqp] at hn
                omega
              · right
                rw [hdecomp, hqp] at hn
                omega
            rw [hdecomp, hqp, hvB_in _ hr, hviewApage _ hr, copyBytes,
              if_neg (by omega)]
          · exact hvB_out n hqp
        rw [hstep2, hview]
    · refine ⟨st, ?_, fun m hm1 hm2 => by omega, fun n hn => rfl⟩
      unfold writeLoop
      rw [if_neg hcl]

/-! Top-level behaviour of read and write over the in-memory transport. -/

lemma read_mem (spp cap : Nat) (hspp : 0 < spp) (hcap : 0 < cap) (buf : Bytes)
    (len offset0 : Nat) (st : GenericBlockDevice Disk) (hwf : CacheWF cap st) :
    ∃ buf1 st1,
      GenericBlockDevice.read spp cap memDevice buf len offset0 st =
        some (Except.ok len, buf1, st1) ∧
      (∀ n, viewByte spp st1 n = viewByte spp st n) ∧
      (∀ k, k < len → buf1 k = viewByte spp st (offset0 + k)) ∧
      (∀ k, len ≤ k → buf1 k = buf k) := by
  obtain ⟨buf1, st1, hloop, hv, hmid, hout⟩ :=
    readLoop_mem spp cap hspp hcap len len (offset0 / PAGE_CACHE_SIZE spp)
      (offset0 % PAGE_CACHE_SIZE spp) 0 buf st hwf
      (Nat.mod_lt _ (PCS_pos hspp)) (by omega)
  refine ⟨buf1, st1, ?_, hv, ?_, ?_⟩
  · unfold GenericBlockDevice.read
    rw [hloop]
  · intro k hk
    have hpos : offset0 / PAGE_CACHE_SIZE spp * PAGE_CACHE_SIZE spp +
        offset0 % PAGE_CACHE_SIZE spp + (k - 0) = offset0 + k := by
      have hd := page_decomp (PAGE_CACHE_SIZE spp) offset0
      omega
    rw [← hpos]
    exact hmid k (Nat.zero_le k) hk
  · intro k hk
    exact hout k (Or.inr hk)

lemma write_mem (spp cap : Nat) (hspp : 0 < spp) (hcap : 0 < cap) (buf : Bytes)
    (len offset0 : Nat) (st : GenericBlockDevice Disk) (hwf : CacheWF cap st) :
    ∃ st1,
      GenericBlockDevice.write spp cap memDevice buf len offset0 st =
        some (Except.ok len, st1) ∧
      (∀ k, k < len → viewByte spp st1 (offset0 + k) = buf k) ∧
      (∀ n, n < offset0 ∨ offset0 + len ≤ n →
        viewByte spp st1 n = viewByte spp st n) := by
  obtain ⟨st1, hloop, hmid, hout⟩ :=
    writeLoop_mem spp cap hspp hcap len buf len (offset0 / PAGE_CACHE_SIZE spp)
      (offset0 % PAGE_CACHE_SIZE spp) 0 st hwf
      (Nat.mod_lt _ (PCS_pos hspp)) (by omega)
  have hd := page_decomp (PAGE_CACHE_SIZE spp) offset0
  refine ⟨st1, ?_, ?_, ?_⟩
  · unfold GenericBlockDevice.write
    rw [hloop]
  · intro k hk
    have hpos : offset0 / PAGE_CACHE_SIZE spp * PAGE_CACHE_SIZE spp +
        offset0 % PAGE_CACHE_SIZE spp + (k - 0) = offset0 + k := by omega
    rw [← hpos]
    exact hmid k (Nat.zero_le k) hk
  · intro n hn
    refine hout n ?_
    rcases hn with hn | hn
    · exact Or.inl (by omega)
    · exact Or.inr (by omega)

/-! Running one operation or a sequence of operations. -/

lemma runOp_readOp_eq (spp cap : Nat) {σ : Type} (lb : LowBlockDevice σ)
    (l q : Nat) (st : GenericBlockDevice σ) (r : Except BlkError Nat)
    (buf1 : Bytes) (st1 : GenericBlockDevice σ)
    (h : GenericBlockDevice.read spp cap lb (fun _ => 0) l q st =
      some (r, buf1, st1)) :
    runOp spp cap lb (Op.readOp l q) st = some st1 := by
  simp only [runOp]
  split
  · next heq =>
    rw [h] at heq
    cases heq
  · next r2 buf2 st2 heq =>
    rw [h] at heq
    injection heq with hp
    injection hp with h1 hp2
    injection hp2 with h2 h3
    subst h3
    rfl

lemma runOp_writeOp_eq (spp cap : Nat) {σ : Type} (lb : LowBlockDevice σ)
    (d : Bytes) (l q : Nat) (st : GenericBlockDevice σ)
    (r : Except BlkError Nat) (st1 : GenericBlockDevice σ)
    (h : GenericBlockDevice.write spp cap lb d l q st = some (r, st1)) :
    runOp spp cap lb (Op.writeOp d l q) st = some st1 := by
  simp only [runOp]
  split
  · next heq =>
    rw [h] at heq
    cases heq
  · next r2 st2 heq =>
    rw [h] at heq
    injection heq with hp
    injection hp with h1 h2
    subst h2
    rfl

lemma runOp_flushOp_eq (spp cap : Nat) {σ : Type} (lb : LowBlockDevice σ)
    (st : GenericBlockDevice σ) :
    runOp spp cap lb Op.flushOp st = some st := rfl

lemma runOps_cons_eq (spp cap : Nat) {σ : Type} (lb : LowBlockDevice σ)
    (op : Op) (ops : List Op) (st stA : GenericBlockDevice σ)
    (h : runOp spp cap lb op st = some stA) :
    runOps spp cap lb (op :: ops) st = runOps spp cap lb ops stA := by
  have h1 : runOps spp cap lb (op :: ops) st =
      match runOp spp cap lb op st with
      | none => none
      | some st1 => runOps spp cap lb ops st1 := rfl
  rw [h1, h]

/-- Does operation op write nowhere at byte position n? -/
def opOutside (op : Op) (n : Nat) : Prop :=
  match op with
  | .writeOp _ l q => n < q ∨ q + l ≤ n
  | _ => True

lemma opOutside_of_disjoint (op : Op) (o len n : Nat)
    (h : opDisjoint op o len = true) (hn1 : o ≤ n) (hn2 : n < o + len) :
    opOutside op n := by
  cases op with
  | readOp l q => trivial
  | writeOp d l q =>
    simp only [opDisjoint, Bool.or_eq_true, decide_eq_true_eq] at h
    simp only [opOutside]
    omega
  | flushOp => trivial

lemma runOp_view (spp cap : Nat) (hspp : 0 < spp) (hcap : 0 < cap) (op : Op)
    (st : GenericBlockDevice Disk) (hwf : CacheWF cap st) :
    ∃ st1, runOp spp cap memDevice op st = some st1 ∧
      ∀ n, opOutside op n → viewByte spp st1 n = viewByte spp st n := by
  cases op with
  | readOp l q =>
    obtain ⟨buf1, st1, hr, hv, _, _⟩ :=
      read_mem spp cap hspp hcap (fun _ => 0) l q st hwf
    exact ⟨st1, runOp_readOp_eq spp cap memDevice l q st _ buf1 st1 hr,
      fun n _ => hv n⟩
  | writeOp d l q =>
    obtain ⟨st1, hw, _, hout⟩ := write_mem spp cap hspp hcap d l q st hwf
    refine ⟨st1, runOp_writeOp_eq spp cap memDevice d l q st _ st1 hw,
      fun n hn => ?_⟩
    exact hout n hn
  | flushOp =>
    exact ⟨st, runOp_flushOp_eq spp cap memDevice st, fun n _ => rfl⟩

lemma runOps_view (spp cap : Nat) (hspp : 0 < spp) (hcap : 0 < cap) :
    ∀ (ops : List Op) (st : GenericBlockDevice Disk), CacheWF cap st →
      ∃ st1, runOps spp cap memDevice ops st = some st1 ∧
        ∀ n, (∀ op ∈ ops, opOutside op n) →
          viewByte spp st1 n = viewByte spp st n := by
  intro ops
  induction ops with
  | nil =>
    intro st hwf
    exact ⟨st, rfl, fun n _ => rfl⟩
  | cons op ops ih =>
    intro st hwf
    obtain ⟨stA, hopA, hvA⟩ := runOp_view spp cap hspp hcap op st hwf
    have hwfA : CacheWF cap stA :=
      (runOp_inv spp cap hcap memDevice op st stA hopA hwf).1
    obtain ⟨st1, hops, hv1⟩ := ih stA hwfA
    refine ⟨st1, ?_, fun n hn => ?_⟩
    · rw [runOps_cons_eq spp cap memDevice op ops st stA hopA]
      exact hops
    · rw [hv1 n (fun o ho => hn o (List.mem_cons_of_mem op ho)),
        hvA n (hn op (List.mem_cons_self op ops))]

/-! The claim theorems. -/

/-- C1: for every well-formed device state over the in-memory transport, every
byte sequence b and byte offset o, writing b at o, then running any further
read/write/flush operations whose writes are disjoint from the range (reads
may span, evict, and reload the written pages at will), then reading the range
back returns exactly b — regardless of page-boundary crossings or evictions in
between. -/
theorem c1_read_after_write (spp cap : Nat) (hspp : 0 < spp) (hcap : 0 < cap)
    (st : GenericBlockDevice Disk) (hwf : CacheWF cap st) (b : Bytes)
    (len o : Nat) (ops : List Op)
    (hdisj : ∀ op ∈ ops, opDisjoint op o len = true) :
    ∃ st1 st2 buf st3,
      GenericBlockDevice.write spp cap memDevice b len o st =
        some (Except.ok len, st1) ∧
      runOps spp cap memDevice ops st1 = some st2 ∧
      GenericBlockDevice.read spp cap memDevice (fun _ => 0) len o st2 =
        some (Except.ok len, buf, st3) ∧
      ∀ k, k < len → buf k = b k := by
  obtain ⟨st1, hw, hmid, hout⟩ := write_mem spp cap hspp hcap b len o st hwf
  have hwf1 : CacheWF cap st1 :=
    (write_inv spp cap hcap memDevice b len o st (Except.ok len, st1) hw hwf).1
  obtain ⟨st2, hops, hview2⟩ := runOps_view spp cap hspp hcap ops st1 hwf1
  have hwf2 : CacheWF cap st2 :=
    (runOps_inv spp cap hcap memDevice ops st1 st2 hops hwf1).1
  obtain ⟨buf, st3, hr, hv3, hmid3, hout3⟩ :=
    read_mem spp cap hspp hcap (fun _ => 0) len o st2 hwf2
  refine ⟨st1, st2, buf, st3, hw, hops, hr, fun k hk => ?_⟩
  rw [hmid3 k hk,
    hview2 (o + k) (fun op hop =>
      opOutside_of_disjoint op o len (o + k) (hdisj op hop) (by omega) (by omega)),
    hmid k hk]

theorem c1_read_after_write_witness :
    0 < 1 ∧ CacheWF 1 (GenericBlockDevice.new zeroDisk) ∧
    (∀ op ∈ [Op.readOp 1 512], opDisjoint op 0 1 = true) ∧
    (∃ st1 st2 buf st3,
      GenericBlockDevice.write 1 1 memDevice (fun _ => 170) 1 0
        (GenericBlockDevice.new zeroDisk) = some (Except.ok 1, st1) ∧
      runOps 1 1 memDevice [Op.readOp 1 512] st1 = some st2 ∧
      GenericBlockDevice.read 1 1 memDevice (fun _ => 0) 1 0 st2 =
        some (Except.ok 1, buf, st3) ∧
      ∀ k, k < 1 → buf k = (fun _ => 170) k) :=
  ⟨by decide, by constructor <;> decide, by decide,
    c1_read_after_write 1 1 (by decide) (by decide)
      (GenericBlockDevice.new zeroDisk) (by constructor <;> decide)
      (fun _ => 170) 1 0 [Op.readOp 1 512] (by decide)⟩

/-- C2: after writing bytes b at offset o and running further operations whose
writes are disjoint from the written range, if the page holding a written byte
is no longer resident in the cache (it was evicted), the backing medium itself
holds that written byte: the eviction wrote the full page content back to the
transport before dropping the frame, so the data survives reload. -/
theorem c2_eviction_writeback_durable (spp cap : Nat) (hspp : 0 < spp)
    (hcap : 0 < cap) (d0 : Disk) (b : Bytes) (len o : Nat) (ops : List Op)
    (hdisj : ∀ op ∈ ops, opDisjoint op o len = true) (k : Nat) (hk : k < len)
    (hev : pageEvictedAfter spp cap (Op.writeOp b len o :: ops) d0
      ((o + k) / PAGE_CACHE_SIZE spp) = true) :
    diskByteAfter spp cap (Op.writeOp b len o :: ops) d0 (o + k) =
      some (b k) := by
  obtain ⟨st1, hw, hmid, hout⟩ :=
    write_mem spp cap hspp hcap b len o (GenericBlockDevice.new d0)
      (new_wf cap d0)
  have hop1 : runOp spp cap memDevice (Op.writeOp b len o)
      (GenericBlockDevice.new d0) = some st1 :=
    runOp_writeOp_eq spp cap memDevice b len o _ _ st1 hw
  have hwf1 : CacheWF cap st1 :=
    (runOp_inv spp cap hcap memDevice _ _ st1 hop1 (new_wf cap d0)).1
  obtain ⟨st2, hops, hview2⟩ := runOps_view spp cap hspp hcap ops st1 hwf1
  have hrun : runOps spp cap memDevice (Op.writeOp b len o :: ops)
      (GenericBlockDevice.new d0) = some st2 := by
    rw [runOps_cons_eq spp cap memDevice _ ops _ st1 hop1]
    exact hops
  have hevicted : lruContains st2.cache ((o + k) / PAGE_CACHE_SIZE spp) =
      false := by
    unfold pageEvictedAfter at hev
    rw [hrun] at hev
    simpa using hev
  have hgnone : lruGet st2.cache ((o + k) / PAGE_CACHE_SIZE spp) = none :=
    lruGet_eq_none_of_contains_false _ _ hevicted
  have hval : diskByte st2.device (o + k) = b k := by
    rw [← viewByte_not_cached spp st2 (o + k) hgnone,
      hview2 (o + k) (fun op hop =>
        opOutside_of_disjoint op o len (o + k) (hdisj op hop) (by omega)
          (by omega)),
      hmid k hk]
  unfold diskByteAfter
  rw [hrun]
  exact congrArg some hval

theorem c2_eviction_writeback_durable_witness :
    0 < 1 ∧
    (∀ op ∈ [Op.readOp 1 512], opDisjoint op 0 1 = true) ∧
    pageEvictedAfter 1 1
      [Op.writeOp (fun _ => 170) 1 0, Op.readOp 1 512] zeroDisk
      ((0 + 0) / PAGE_CACHE_SIZE 1) = true ∧
    diskByteAfter 1 1 [Op.writeOp (fun _ => 170) 1 0, Op.readOp 1 512]
      zeroDisk (0 + 0) = some ((fun _ => (170 : Nat)) 0) :=
  ⟨by decide, by decide, by decide,
    c2_eviction_writeback_durable 1 1 (by decide) (by decide) zeroDisk
      (fun _ => 170) 1 0 [Op.readOp 1 512] (by decide) 0 (by decide)
      (by decide)⟩

/-- C3: for every sequence of read/write/flush operations starting from a
fresh GenericBlockDevice over any transport, the number of resident page-cache
entries never exceeds the configured capacity. -/
theorem c3_cache_capacity_bound (spp cap : Nat) (hcap : 0 < cap) {σ : Type}
    (lb : LowBlockDevice σ) (dev0 : σ) (ops : List Op)
    (st1 : GenericBlockDevice σ)
    (h : runOps spp cap lb ops (GenericBlockDevice.new dev0) = some st1) :
    st1.cache.length ≤ cap :=
  (runOps_inv spp cap hcap lb ops _ st1 h (new_wf cap dev0)).1.2

theorem c3_cache_capacity_bound_witness :
    0 < 2 ∧
    runOps 1 2 memDevice [Op.flushOp] (GenericBlockDevice.new zeroDisk) =
      some (GenericBlockDevice.new zeroDisk) ∧
    (GenericBlockDevice.new zeroDisk).cache.length ≤ 2 :=
  ⟨by decide, rfl,
    c3_cache_capacity_bound 1 2 (by decide) memDevice zeroDisk [Op.flushOp]
      (GenericBlockDevice.new zeroDisk) rfl⟩

/-- C4: the claim that flush synchronously forces all dirty pages to the
medium fails on the source: flush returns Ok without touching anything, so a
byte just written to a resident page (value 170 at offset 0) is still absent
from the backing medium (which still reads 0 there) after flush returns. -/
theorem c4_flush_noop_divergence :
    (∀ (σ : Type) (st : GenericBlockDevice σ),
      GenericBlockDevice.flush st = some (Except.ok (), st)) ∧
    diskByteAfter 1 1 [Op.writeOp (fun _ => 170) 1 0, Op.flushOp] zeroDisk 0 =
      some 0 ∧
    viewByteAfter 1 1 [Op.writeOp (fun _ => 170) 1 0, Op.flushOp] zeroDisk 0 =
      some 170 :=
  ⟨fun σ st => rfl, by decide, by decide⟩

/-- C5: the claim that a transport I/O failure during miss-fill propagates an
error result to the caller fails on the source: read and write unwrap the
transport result, so a failing read_block panics (modelled as none) instead of
returning an Err value. -/
theorem c5_transport_failure_panics :
    GenericBlockDevice.read 1 1 failingDevice (fun _ => 0) 1 0
      (GenericBlockDevice.new ()) = none ∧
    GenericBlockDevice.write 1 1 failingDevice (fun _ => 0) 1 0
      (GenericBlockDevice.new ()) = none :=
  ⟨rfl, rfl⟩

/-- C6: a write covering only part of a page performs a full miss-fill first,
so every byte outside the written range keeps its previous view, and if its
page was not resident before the write it equals the backing medium's
content — no corruption of untouched bytes. -/
theorem c6_partial_write_preserves_untouched (spp cap : Nat) (hspp : 0 < spp)
    (hcap : 0 < cap) (st : GenericBlockDevice Disk) (hwf : CacheWF cap st)
    (b : Bytes) (len o n : Nat) (hn : n < o ∨ o + len ≤ n) :
    ∃ st1,
      GenericBlockDevice.write spp cap memDevice b len o st =
        some (Except.ok len, st1) ∧
      viewByte spp st1 n = viewByte spp st n ∧
      (lruContains st.cache (n / PAGE_CACHE_SIZE spp) = false →
        viewByte spp st1 n = diskByte st.device n) := by
  obtain ⟨st1, hw, hmid, hout⟩ := write_mem spp cap hspp hcap b len o st hwf
  refine ⟨st1, hw, hout n hn, fun hnc => ?_⟩
  rw [hout n hn,
    viewByte_not_cached spp st n (lruGet_eq_none_of_contains_false _ _ hnc)]

theorem c6_partial_write_preserves_untouched_witness :
    0 < 1 ∧ CacheWF 1 (GenericBlockDevice.new zeroDisk) ∧
    ((1 : Nat) < 0 ∨ 0 + 1 ≤ 1) ∧
    (∃ st1,
      GenericBlockDevice.write 1 1 memDevice (fun _ => 170) 1 0
        (GenericBlockDevice.new zeroDisk) = some (Except.ok 1, st1) ∧
      viewByte 1 st1 1 = viewByte 1 (GenericBlockDevice.new zeroDisk) 1 ∧
      (lruContains (GenericBlockDevice.new zeroDisk).cache
          (1 / PAGE_CACHE_SIZE 1) = false →
        viewByte 1 st1 1 =
          diskByte (GenericBlockDevice.new zeroDisk).device 1)) :=
  ⟨by decide, by constructor <;> decide, by decide,
    c6_partial_write_preserves_untouched 1 1 (by decide) (by decide)
      (GenericBlockDevice.new zeroDisk) (by constructor <;> decide)
      (fun _ => 170) 1 0 1 (by decide)⟩

/-- C7: when the accessed page index is resident (a hit), the page access does
no transport I/O at all: the hit-or-miss step returns the whole device state
(transport handle included) unchanged, and the only cache effects of the
access — the recency promotion of a read and the in-place update of a
write — leave every other cached page's binding untouched. -/
theorem c7_hit_no_transport_io (spp cap : Nat) {σ : Type}
    (lb : LowBlockDevice σ) (st : GenericBlockDevice σ) (pageId : Nat)
    (hhit : lruContains st.cache pageId = true) :
    ensureResident spp cap lb pageId st = some st ∧
    (∀ q, lruGet (lruPromote st.cache pageId) q = lruGet st.cache q) ∧
    (∀ v q, q ≠ pageId →
      lruGet (lruSetFront st.cache pageId v) q = lruGet st.cache q) := by
  refine ⟨?_, fun q => lruGet_promote st.cache pageId q, fun v q hq => ?_⟩
  · unfold ensureResident
    rw [if_pos hhit]
  · rw [lruGet_setFront, if_neg hq]

theorem c7_hit_no_transport_io_witness :
    lruContains
      ((⟨zeroDisk, [(0, fun _ => 7)], []⟩ : GenericBlockDevice Disk)).cache
      0 = true ∧
    (ensureResident 1 1 memDevice 0
        (⟨zeroDisk, [(0, fun _ => 7)], []⟩ : GenericBlockDevice Disk) =
      some (⟨zeroDisk, [(0, fun _ => 7)], []⟩ : GenericBlockDevice Disk) ∧
    (∀ q, lruGet (lruPromote [(0, fun _ => 7)] 0) q =
      lruGet [(0, fun _ => 7)] q) ∧
    (∀ v q, q ≠ 0 →
      lruGet (lruSetFront [(0, fun _ => 7)] 0 v) q =
        lruGet [(0, fun _ => 7)] q)) :=
  ⟨rfl,
    c7_hit_no_transport_io 1 1 memDevice
      (⟨zeroDisk, [(0, fun _ => 7)], []⟩ : GenericBlockDevice Disk) 0 rfl⟩

/-- C8: the claim that an out-of-range byte access returns the OutOfRange
error kind fails on the source: read and write perform no capacity check at
all.  On a 4096-byte MemoryFat32Img (size() = 4096), reading or writing one
byte at offset 4096 reaches the transport with an out-of-range block index and
panics (modelled as none) instead of returning an error value. -/
theorem c8_out_of_range_panics :
    GenericBlockDevice.size MemoryFat32Img
      (GenericBlockDevice.new (⟨fun _ => 0, 4096⟩ : Fat32Img)) = 4096 ∧
    GenericBlockDevice.read 8 2 MemoryFat32Img (fun _ => 0) 1 4096
      (GenericBlockDevice.new (⟨fun _ => 0, 4096⟩ : Fat32Img)) = none ∧
    GenericBlockDevice.write 8 2 MemoryFat32Img (fun _ => 0) 1 4096
      (GenericBlockDevice.new (⟨fun _ => 0, 4096⟩ : Fat32Img)) = none :=
  ⟨rfl, rfl, rfl⟩

/-- C9: in the current source dirty pages are never actually marked dirty (the
push into the dirty table is commented out in the write path, and the other
paths only remove entries), so the dirty set stays empty after every sequence
of read/write/flush operations from a fresh device, over any transport. -/
theorem c9_dirty_set_always_empty (spp cap : Nat) (hcap : 0 < cap) {σ : Type}
    (lb : LowBlockDevice σ) (dev0 : σ) (ops : List Op)
    (st1 : GenericBlockDevice σ)
    (h : runOps spp cap lb ops (GenericBlockDevice.new dev0) = some st1) :
    st1.dirty = [] := by
  have hmono := (runOps_inv spp cap hcap lb ops _ st1 h (new_wf cap dev0)).2
  cases hd : st1.dirty with
  | nil => rfl
  | cons a t =>
    have hmem := hmono a (by rw [hd]; exact List.mem_cons_self a t)
    simp [GenericBlockDevice.new] at hmem

theorem c9_dirty_set_always_empty_witness :
    0 < 1 ∧
    runOps 1 1 memDevice [Op.flushOp] (GenericBlockDevice.new zeroDisk) =
      some (GenericBlockDevice.new zeroDisk) ∧
    (GenericBlockDevice.new zeroDisk).dirty = [] :=
  ⟨by decide, rfl,
    c9_dirty_set_always_empty 1 1 (by decide) memDevice zeroDisk [Op.flushOp]
      (GenericBlockDevice.new zeroDisk) rfl⟩

/-- C10: whenever read or write returns at all, the returned byte count is
exactly the caller's buffer length; the device never reports a short read or a
short write, over any transport. -/
theorem c10_full_length_result (spp cap : Nat) {σ : Type}
    (lb : LowBlockDevice σ) (bufR bufW : Bytes) (len o : Nat)
    (st : GenericBlockDevice σ)
    (outR : Except BlkError Nat × Bytes × GenericBlockDevice σ)
    (outW : Except BlkError Nat × GenericBlockDevice σ)
    (hR : GenericBlockDevice.read spp cap lb bufR len o st = some outR)
    (hW : GenericBlockDevice.write spp cap lb bufW len o st = some outW) :
    outR.1 = Except.ok len ∧ outW.1 = Except.ok len := by
  constructor
  · unfold GenericBlockDevice.read at hR
    split at hR
    · cases hR
    · next buf1 st1 heq =>
      cases hR
      rfl
  · unfold GenericBlockDevice.write at hW
    split at hW
    · cases hW
    · next st1 heq =>
      cases hW
      rfl

theorem c10_full_length_result_witness :
    GenericBlockDevice.read 1 1 memDevice (fun _ => 0) 0 5
      (GenericBlockDevice.new zeroDisk) =
      some (Except.ok 0, fun _ => 0, GenericBlockDevice.new zeroDisk) ∧
    GenericBlockDevice.write 1 1 memDevice (fun _ => 0) 0 5
      (GenericBlockDevice.new zeroDisk) =
      some (Except.ok 0, GenericBlockDevice.new zeroDisk) ∧
    (Except.ok 0 : Except BlkError Nat) = Except.ok 0 ∧
    (Except.ok 0 : Except BlkError Nat) = Except.ok 0 := by
  refine ⟨rfl, rfl, ?_, ?_⟩
  · exact (c10_full_length_result 1 1 memDevice (fun _ => 0) (fun _ => 0) 0 5
      (GenericBlockDevice.new zeroDisk) _ _ rfl rfl).1
  · exact (c10_full_length_result 1 1 memDevice (fun _ => 0) (fun _ => 0) 0 5
      (GenericBlockDevice.new zeroDisk) _ _ rfl rfl).2

end BlockDriver
